/-
Verification development for the xk6-text-encoding module.

Go strings and byte slices are byte sequences; both are modelled as
`List Nat`, where each element is a byte value (< 256 for real Go data).
Fallible Go functions returning `(T, error)` are modelled as `Except Err T`.
-/
import Mathlib

/-- Maximum size of input accepted by the facade operations
(`MaxInputSize = 100 * 1024 * 1024` in the source). -/
def MaxInputSize : Nat := 100 * 1024 * 1024

/-- Error outcomes of the module, one constructor per distinct error message
produced by the Go source (`ErrInvalidUTF8`, `ErrInvalidBase64`,
`ErrInvalidUTF8Base64`, the input-size `fmt.Errorf`, the
"unsupported encoding" error of `getEncoding`, and the wrapping errors of
`TextEncoder.Encode` / `TextDecoder.Decode`). -/
inductive Err where
  | inputTooLarge
  | invalidUTF8
  | invalidBase64
  | invalidUTF8Base64
  | encodingFailure
  | decodingFailure
  | unsupportedEncoding (label : List Nat)
  deriving DecidableEq, Repr

deriving instance DecidableEq for Except

/-- Single-rune acceptance step of Go's `unicode/utf8` validation
(`utf8.Valid`, `utf8.ValidString`, and the per-rune acceptance of
`utf8.RuneCountInString` all share it).  Go classifies the first byte with
its `first` table and then checks the continuation bytes against
`acceptRanges`: leads `0xC2..0xDF` take one continuation in `80..BF`;
leads `0xE0..0xEF` take two continuations, the first restricted to
`A0..BF` for `0xE0` and to `80..9F` for `0xED`; leads `0xF0..0xF4` take
three continuations, the first restricted to `90..BF` for `0xF0` and to
`80..8F` for `0xF4`.  Bytes `0x80..0xC1` and `0xF5..` are invalid as a
first byte.  Returns the remaining bytes after one accepted rune, or
`none` if the input does not start with an accepted rune. -/
def utf8Step : List Nat → Option (List Nat)
  | [] => none
  | b :: rest =>
    if b < 0x80 then some rest
    else if 0xC2 ≤ b ∧ b ≤ 0xDF then
      match rest with
      | b1 :: rest2 => if 0x80 ≤ b1 ∧ b1 ≤ 0xBF then some rest2 else none
      | [] => none
    else if 0xE0 ≤ b ∧ b ≤ 0xEF then
      match rest with
      | b1 :: b2 :: rest2 =>
        if (if b = 0xE0 then 0xA0 else 0x80) ≤ b1 ∧
           b1 ≤ (if b = 0xED then 0x9F else 0xBF) ∧
           0x80 ≤ b2 ∧ b2 ≤ 0xBF then some rest2 else none
      | _ => none
    else if 0xF0 ≤ b ∧ b ≤ 0xF4 then
      match rest with
      | b1 :: b2 :: b3 :: rest2 =>
        if (if b = 0xF0 then 0x90 else 0x80) ≤ b1 ∧
           b1 ≤ (if b = 0xF4 then 0x8F else 0xBF) ∧
           0x80 ≤ b2 ∧ b2 ≤ 0xBF ∧ 0x80 ≤ b3 ∧ b3 ≤ 0xBF then some rest2 else none
      | _ => none
    else none

/-- Single-rune acceptance by the standard UTF-8 definition, written from
the spec's words: a well-formed sequence encodes a Unicode scalar value (a
code point below `0x110000` that is not a surrogate `0xD800..0xDFFF`) in
its minimal form, so overlong encodings are rejected (a 2-byte sequence
must decode to at least `0x80`, a 3-byte one to at least `0x800`, a 4-byte
one to at least `0x10000`).  Continuation bytes are `0x80..0xBF`; leads
are `0xC0..0xDF` (2 bytes), `0xE0..0xEF` (3 bytes), `0xF0..0xF7`
(4 bytes); anything else fails. -/
def utf8SpecStep : List Nat → Option (List Nat)
  | [] => none
  | b :: rest =>
    if b < 0x80 then some rest
    else if 0xC0 ≤ b ∧ b ≤ 0xDF then
      match rest with
      | b1 :: rest2 =>
        if 0x80 ≤ b1 ∧ b1 ≤ 0xBF ∧
           0x80 ≤ (b - 0xC0) * 64 + (b1 - 0x80) then some rest2 else none
      | [] => none
    else if 0xE0 ≤ b ∧ b ≤ 0xEF then
      match rest with
      | b1 :: b2 :: rest2 =>
        if 0x80 ≤ b1 ∧ b1 ≤ 0xBF ∧ 0x80 ≤ b2 ∧ b2 ≤ 0xBF ∧
           0x800 ≤ (b - 0xE0) * 4096 + (b1 - 0x80) * 64 + (b2 - 0x80) ∧
           ¬(0xD800 ≤ (b - 0xE0) * 4096 + (b1 - 0x80) * 64 + (b2 - 0x80) ∧
             (b - 0xE0) * 4096 + (b1 - 0x80) * 64 + (b2 - 0x80) ≤ 0xDFFF)
        then some rest2 else none
      | _ => none
    else if 0xF0 ≤ b ∧ b ≤ 0xF7 then
      match rest with
      | b1 :: b2 :: b3 :: rest2 =>
        if 0x80 ≤ b1 ∧ b1 ≤ 0xBF ∧ 0x80 ≤ b2 ∧ b2 ≤ 0xBF ∧
           0x80 ≤ b3 ∧ b3 ≤ 0xBF ∧
           0x10000 ≤ (b - 0xF0) * 262144 + (b1 - 0x80) * 4096 +
             (b2 - 0x80) * 64 + (b3 - 0x80) ∧
           (b - 0xF0) * 262144 + (b1 - 0x80) * 4096 +
             (b2 - 0x80) * 64 + (b3 - 0x80) ≤ 0x10FFFF
        then some rest2 else none
      | _ => none
    else none

/-- Validation loop: repeatedly consume one accepted rune with `step`;
accept when the input is exhausted, reject as soon as `step` rejects.
Go iterates with a byte index; the iteration is modelled with an explicit
fuel argument (every step consumes at least one byte, so fuel equal to the
length of the list runs the loop to completion). -/
def validLoop (step : List Nat → Option (List Nat)) : Nat → List Nat → Bool
  | _, [] => true
  | 0, _ :: _ => false
  | fuel + 1, b :: rest =>
    match step (b :: rest) with
    | some tail => validLoop step fuel tail
    | none => false

/-- Go's `utf8.Valid` / `utf8.ValidString`. -/
def utf8Valid (l : List Nat) : Bool := validLoop utf8Step l.length l

/-- Well-formed UTF-8 per the standard definition (used to state the spec's
description of what `DecodeUTF8` rejects). -/
def utf8SpecValid (l : List Nat) : Bool := validLoop utf8SpecStep l.length l

/-- Advance of one loop iteration of Go's `utf8.RuneCountInString`: a rune
accepted by the shared table consumes its full length, anything else
(invalid lead, continuation byte out of range, or a truncated sequence at
the end) consumes a single byte. -/
def runeStep : List Nat → List Nat
  | [] => []
  | b :: rest =>
    match utf8Step (b :: rest) with
    | some tail => tail
    | none => rest

/-- Counting loop of Go's `utf8.RuneCountInString`: every iteration counts
one rune and advances by `runeStep`; fuel as in `validLoop`. -/
def runeCountLoop : Nat → List Nat → Nat
  | _, [] => 0
  | 0, _ :: _ => 0
  | fuel + 1, b :: rest => 1 + runeCountLoop fuel (runeStep (b :: rest))

/-- Go's `utf8.RuneCountInString`. -/
def runeCount (l : List Nat) : Nat := runeCountLoop l.length l

/-- Character of the standard Base64 alphabet at index `i`
("A".."Z", "a".."z", "0".."9", "+", "/"), as a byte value. -/
def b64char (i : Nat) : Nat :=
  if i < 26 then 65 + i
  else if i < 52 then 97 + (i - 26)
  else if i < 62 then 48 + (i - 52)
  else if i = 62 then 43
  else 47

/-- Inverse of the standard Base64 alphabet; `none` for bytes outside it
(including the padding byte 61, handled separately by the decoder). -/
def b64inv (c : Nat) : Option Nat :=
  if 65 ≤ c ∧ c ≤ 90 then some (c - 65)
  else if 97 ≤ c ∧ c ≤ 122 then some (c - 71)
  else if 48 ≤ c ∧ c ≤ 57 then some (c + 4)
  else if c = 43 then some 62
  else if c = 47 then some 63
  else none

/-- Model of Go's `base64.StdEncoding.EncodeToString` (RFC 4648, padded):
groups of three bytes become four alphabet characters; a final group of one
byte becomes two characters plus "==", of two bytes three characters
plus "=". -/
def base64Encode : List Nat → List Nat
  | [] => []
  | [b0] => [b64char (b0 / 4), b64char (b0 % 4 * 16), 61, 61]
  | [b0, b1] => [b64char (b0 / 4), b64char (b0 % 4 * 16 + b1 / 16),
                 b64char (b1 % 16 * 4), 61]
  | b0 :: b1 :: b2 :: rest =>
    b64char (b0 / 4) :: b64char (b0 % 4 * 16 + b1 / 16) ::
    b64char (b1 % 16 * 4 + b2 / 64) :: b64char (b2 % 64) :: base64Encode rest

/-- Model of Go's `base64.StdEncoding.DecodeString` (RFC 4648, padded):
input length must be a multiple of four; every quartet is decoded through
the alphabet inverse, with "=" padding admitted only at the final one or
two positions of the whole input.  Characters outside the alphabet fail.
(Go additionally skips CR and LF bytes; no claim here depends on that, and
the encoder never emits them.) -/
def base64Decode : List Nat → Except Unit (List Nat)
  | [] => .ok []
  | c0 :: c1 :: c2 :: c3 :: rest =>
    match b64inv c0, b64inv c1 with
    | some a0, some a1 =>
      if c2 = 61 then
        if c3 = 61 ∧ rest = [] then .ok [a0 * 4 + a1 / 16] else .error ()
      else
        match b64inv c2 with
        | some a2 =>
          if c3 = 61 then
            if rest = [] then .ok [a0 * 4 + a1 / 16, a1 % 16 * 16 + a2 / 4]
            else .error ()
          else
            match b64inv c3 with
            | some a3 =>
              match base64Decode rest with
              | .ok tail =>
                .ok ((a0 * 4 + a1 / 16) :: (a1 % 16 * 16 + a2 / 4) ::
                     (a2 % 4 * 64 + a3) :: tail)
              | .error e => .error e
            | none => .error ()
        | none => .error ()
    | _, _ => .error ()
  | _ => .error ()

/-- `TextEncoding.EncodeUTF8` from the source: empty input gives empty
bytes; oversized input fails; invalid UTF-8 fails; otherwise the raw bytes
of the string are returned. -/
def EncodeUTF8 (text : List Nat) : Except Err (List Nat) :=
  if text = [] then .ok []
  else if text.length > MaxInputSize then .error .inputTooLarge
  else if ¬ utf8Valid text then .error .invalidUTF8
  else .ok text

/-- `TextEncoding.EncodeUTF8ToBase64` from the source. -/
def EncodeUTF8ToBase64 (text : List Nat) : Except Err (List Nat) :=
  if text = [] then .ok []
  else if text.length > MaxInputSize then .error .inputTooLarge
  else if ¬ utf8Valid text then .error .invalidUTF8
  else .ok (base64Encode text)

/-- `TextEncoding.DecodeUTF8` from the source. -/
def DecodeUTF8 (data : List Nat) : Except Err (List Nat) :=
  if data.length = 0 then .ok []
  else if data.length > MaxInputSize then .error .inputTooLarge
  else if ¬ utf8Valid data then .error .invalidUTF8
  else .ok data

/-- `TextEncoding.DecodeUTF8FromBase64` from the source. -/
def DecodeUTF8FromBase64 (encodedData : List Nat) : Except Err (List Nat) :=
  if encodedData = [] then .ok []
  else if encodedData.length > MaxInputSize then .error .inputTooLarge
  else
    match base64Decode encodedData with
    | .error _ => .error .invalidBase64
    | .ok decoded =>
      if ¬ utf8Valid decoded then .error .invalidUTF8Base64
      else .ok decoded

/-- `TextEncoding.CountUTF8Bytes` from the source. -/
def CountUTF8Bytes (text : List Nat) : Except Err Nat :=
  if text = [] then .ok 0
  else if text.length > MaxInputSize then .error .inputTooLarge
  else if ¬ utf8Valid text then .error .invalidUTF8
  else .ok text.length

/-- `TextEncoding.CountUTF8Runes` from the source. -/
def CountUTF8Runes (text : List Nat) : Except Err Nat :=
  if text = [] then .ok 0
  else if text.length > MaxInputSize then .error .inputTooLarge
  else if ¬ utf8Valid text then .error .invalidUTF8
  else .ok (runeCount text)

/-- `TextEncoding.IsValidUTF8` from the source: empty input reports valid;
oversized input returns an error; otherwise the validity boolean. -/
def IsValidUTF8 (text : List Nat) : Except Err Bool :=
  if text = [] then .ok true
  else if text.length > MaxInputSize then .error .inputTooLarge
  else .ok (utf8Valid text)

/-- `TextEncoding.IsValidUTF8Bytes` from the source. -/
def IsValidUTF8Bytes (data : List Nat) : Except Err Bool :=
  if data.length = 0 then .ok true
  else if data.length > MaxInputSize then .error .inputTooLarge
  else .ok (utf8Valid data)


/-- Byte sequence of an ASCII string literal, used for the encoding labels
of the registry (all of which are ASCII). -/
def strB (s : String) : List Nat := s.toList.map (fun c => c.toNat)

/-- Codec identities handed out by the registry, one constructor per
distinct codec value in the source table (`unicode.UTF8`, the three
`unicode.UTF16` configurations, each `charmap` singleton, and the
japanese / chinese / korean codecs). -/
inductive Codec where
  | utf8
  | utf16
  | utf16le
  | utf16be
  | iso8859_1 | iso8859_2 | iso8859_3 | iso8859_4 | iso8859_5 | iso8859_6
  | iso8859_7 | iso8859_8 | iso8859_9 | iso8859_10 | iso8859_13 | iso8859_14
  | iso8859_15 | iso8859_16
  | windows1250 | windows1251 | windows1252 | windows1253 | windows1254
  | windows1255 | windows1256 | windows1257 | windows1258
  | koi8r | koi8u
  | shiftJIS | eucJP | iso2022JP
  | gbk | gb18030 | big5
  | eucKR
  deriving DecidableEq, Repr

/-- ASCII fragment of Go's `strings.ToLower` (Unicode simple case mapping;
on the ASCII bytes that make up every registry label it maps `A..Z` to
`a..z` and leaves everything else unchanged). -/
def toLowerByte (c : Nat) : Nat := if 65 ≤ c ∧ c ≤ 90 then c + 32 else c

/-- Whitespace test of Go's `strings.TrimSpace` (`unicode.IsSpace`),
restricted to the single-byte whitespace characters: space, tab, newline,
vertical tab, form feed, carriage return. -/
def isSpaceByte (c : Nat) : Bool := decide (c = 32 ∨ (9 ≤ c ∧ c ≤ 13))

/-- Go's `strings.TrimSpace`: remove leading and trailing whitespace. -/
def trimSpace (l : List Nat) : List Nat :=
  ((l.dropWhile isSpaceByte).reverse.dropWhile isSpaceByte).reverse

/-- The label normalization performed at the top of `getEncoding`:
`strings.ToLower(strings.TrimSpace(label))`. -/
def normalizeLabel (l : List Nat) : List Nat := (trimSpace l).map toLowerByte

/-- The `switch` of `getEncoding` over the already-normalized label. -/
def lookupEncoding (label : List Nat) : Except Err Codec :=
  if label = strB "utf-8" ∨ label = strB "utf8" then .ok .utf8
  else if label = strB "utf-16" ∨ label = strB "utf16" then .ok .utf16
  else if label = strB "utf-16le" ∨ label = strB "utf16le" then .ok .utf16le
  else if label = strB "utf-16be" ∨ label = strB "utf16be" then .ok .utf16be
  else if label = strB "iso-8859-1" ∨ label = strB "latin1" then .ok .iso8859_1
  else if label = strB "iso-8859-2" ∨ label = strB "latin2" then .ok .iso8859_2
  else if label = strB "iso-8859-3" ∨ label = strB "latin3" then .ok .iso8859_3
  else if label = strB "iso-8859-4" ∨ label = strB "latin4" then .ok .iso8859_4
  else if label = strB "iso-8859-5" then .ok .iso8859_5
  else if label = strB "iso-8859-6" then .ok .iso8859_6
  else if label = strB "iso-8859-7" then .ok .iso8859_7
  else if label = strB "iso-8859-8" then .ok .iso8859_8
  else if label = strB "iso-8859-9" ∨ label = strB "latin5" then .ok .iso8859_9
  else if label = strB "iso-8859-10" ∨ label = strB "latin6" then .ok .iso8859_10
  else if label = strB "iso-8859-13" ∨ label = strB "latin7" then .ok .iso8859_13
  else if label = strB "iso-8859-14" ∨ label = strB "latin8" then .ok .iso8859_14
  else if label = strB "iso-8859-15" ∨ label = strB "latin9" then .ok .iso8859_15
  else if label = strB "iso-8859-16" ∨ label = strB "latin10" then .ok .iso8859_16
  else if label = strB "windows-1250" then .ok .windows1250
  else if label = strB "windows-1251" then .ok .windows1251
  else if label = strB "windows-1252" then .ok .windows1252
  else if label = strB "windows-1253" then .ok .windows1253
  else if label = strB "windows-1254" then .ok .windows1254
  else if label = strB "windows-1255" then .ok .windows1255
  else if label = strB "windows-1256" then .ok .windows1256
  else if label = strB "windows-1257" then .ok .windows1257
  else if label = strB "windows-1258" then .ok .windows1258
  else if label = strB "koi8-r" then .ok .koi8r
  else if label = strB "koi8-u" then .ok .koi8u
  else if label = strB "shift-jis" ∨ label = strB "shift_jis" ∨ label = strB "sjis" then
    .ok .shiftJIS
  else if label = strB "euc-jp" ∨ label = strB "eucjp" then .ok .eucJP
  else if label = strB "iso-2022-jp" ∨ label = strB "iso2022jp" then .ok .iso2022JP
  else if label = strB "gbk" then .ok .gbk
  else if label = strB "gb18030" then .ok .gb18030
  else if label = strB "big5" then .ok .big5
  else if label = strB "euc-kr" ∨ label = strB "euckr" then .ok .eucKR
  else .error (.unsupportedEncoding label)

/-- `getEncoding` from the source: normalize the label
(`strings.ToLower(strings.TrimSpace(label))`), then run the switch. -/
def getEncoding (label : List Nat) : Except Err Codec :=
  lookupEncoding (normalizeLabel label)

/-- `Utils.IsValidEncoding` from the source: the label is valid when
`getEncoding` returns no error. -/
def IsValidEncoding (label : List Nat) : Bool := (getEncoding label).isOk

/-- `Utils.GetSupportedEncodings` from the source, in source order. -/
def GetSupportedEncodings : List (List Nat) :=
  [strB "utf-8", strB "utf8",
   strB "utf-16", strB "utf16", strB "utf-16le", strB "utf16le",
   strB "utf-16be", strB "utf16be",
   strB "iso-8859-1", strB "latin1",
   strB "iso-8859-2", strB "latin2",
   strB "iso-8859-3", strB "latin3",
   strB "iso-8859-4", strB "latin4",
   strB "iso-8859-5",
   strB "iso-8859-6",
   strB "iso-8859-7",
   strB "iso-8859-8",
   strB "iso-8859-9", strB "latin5",
   strB "iso-8859-10", strB "latin6",
   strB "iso-8859-13", strB "latin7",
   strB "iso-8859-14", strB "latin8",
   strB "iso-8859-15", strB "latin9",
   strB "iso-8859-16", strB "latin10",
   strB "windows-1250", strB "windows-1251", strB "windows-1252",
   strB "windows-1253", strB "windows-1254", strB "windows-1255",
   strB "windows-1256", strB "windows-1257", strB "windows-1258",
   strB "koi8-r", strB "koi8-u",
   strB "shift-jis", strB "shift_jis", strB "sjis",
   strB "euc-jp", strB "eucjp",
   strB "iso-2022-jp", strB "iso2022jp",
   strB "gbk", strB "gb18030", strB "big5",
   strB "euc-kr", strB "euckr"]

/-- `TextEncoder` from the source: a resolved codec paired with the label
string it was constructed from. -/
structure TextEncoder where
  encoding : Codec
  label : List Nat

/-- `TextDecoder` from the source. -/
structure TextDecoder where
  encoding : Codec
  label : List Nat

/-- `TextEncoder.Encode` from the source: empty text gives empty bytes; for
the labels `"utf-8"` and `"utf8"` the string's bytes are returned directly;
any other codec delegates to the external `golang.org/x/text` encoder
(supplied here as the argument `underlying`, since its code is outside this
repository), wrapping its error (`failed to encode text: %w`). -/
def TextEncoder.Encode (underlying : Codec → List Nat → Except Unit (List Nat))
    (te : TextEncoder) (text : List Nat) : Except Err (List Nat) :=
  if text = [] then .ok []
  else if te.label = strB "utf-8" ∨ te.label = strB "utf8" then .ok text
  else
    match underlying te.encoding text with
    | .ok encoded => .ok encoded
    | .error _ => .error .encodingFailure

/-- `TextDecoder.Decode` from the source: empty data gives the empty
string; for the labels `"utf-8"` and `"utf8"` the bytes are returned
directly as the string; any other codec delegates to the external decoder,
wrapping its error (`failed to decode data: %w`). -/
def TextDecoder.Decode (underlying : Codec → List Nat → Except Unit (List Nat))
    (td : TextDecoder) (data : List Nat) : Except Err (List Nat) :=
  if data.length = 0 then .ok []
  else if td.label = strB "utf-8" ∨ td.label = strB "utf8" then .ok data
  else
    match underlying td.encoding data with
    | .ok decoded => .ok decoded
    | .error _ => .error .decodingFailure

/-- `TextEncoding.NewTextEncoder` from the source: an empty label defaults
to `"utf-8"`; an unresolvable label propagates the registry error. -/
def NewTextEncoder (label : List Nat) : Except Err TextEncoder :=
  let label := if label = [] then strB "utf-8" else label
  match getEncoding label with
  | .ok enc => .ok ⟨enc, label⟩
  | .error e => .error e

/-- `TextEncoding.NewTextDecoder` from the source. -/
def NewTextDecoder (label : List Nat) : Except Err TextDecoder :=
  let label := if label = [] then strB "utf-8" else label
  match getEncoding label with
  | .ok enc => .ok ⟨enc, label⟩
  | .error e => .error e


theorem utf8Step_eq_spec (l : List Nat) : utf8Step l = utf8SpecStep l := by
  match l with
  | [] => rfl
  | [b] =>
    simp only [utf8Step, utf8SpecStep]
    split_ifs <;> first | rfl | omega
  | [b, b1] =>
    simp only [utf8Step, utf8SpecStep]
    split_ifs <;> first | rfl | omega
  | [b, b1, b2] =>
    simp only [utf8Step, utf8SpecStep]
    split_ifs <;> first | rfl | omega
  | b :: b1 :: b2 :: b3 :: rest3 =>
    simp only [utf8Step, utf8SpecStep]
    split_ifs <;> first | rfl | omega

theorem utf8Step_decomp (l tail : List Nat) (h : utf8Step l = some tail) :
    ∃ c, l = c ++ tail ∧ c ≠ [] ∧ ∀ b ∈ c, b < 245 := by
  match l with
  | [] => simp [utf8Step] at h
  | [b] =>
    simp only [utf8Step] at h
    split_ifs at h <;>
    first
      | (exact Option.noConfusion h)
      | (rw [Option.some.injEq] at h; subst h
         exact ⟨[b], rfl, by simp, by intro x hx; simp at hx; omega⟩)
  | [b, b1] =>
    simp only [utf8Step] at h
    split_ifs at h <;>
    first
      | (exact Option.noConfusion h)
      | (rw [Option.some.injEq] at h; subst h
         first
           | exact ⟨[b], rfl, by simp, by intro x hx; simp at hx; omega⟩
           | exact ⟨[b, b1], rfl, by simp, by intro x hx; simp at hx; omega⟩)
  | [b, b1, b2] =>
    simp only [utf8Step] at h
    split_ifs at h <;>
    first
      | (exact Option.noConfusion h)
      | (rw [Option.some.injEq] at h; subst h
         first
           | exact ⟨[b], rfl, by simp, by intro x hx; simp at hx; omega⟩
           | exact ⟨[b, b1], rfl, by simp, by intro x hx; simp at hx; omega⟩
           | exact ⟨[b, b1, b2], rfl, by simp, by intro x hx; simp at hx; omega⟩)
  | b :: b1 :: b2 :: b3 :: rest3 =>
    simp only [utf8Step] at h
    split_ifs at h <;>
    first
      | (exact Option.noConfusion h)
      | (rw [Option.some.injEq] at h; subst h
         first
           | exact ⟨[b], rfl, by simp, by intro x hx; simp at hx; omega⟩
           | exact ⟨[b, b1], rfl, by simp, by intro x hx; simp at hx; omega⟩
           | exact ⟨[b, b1, b2], rfl, by simp, by intro x hx; simp at hx; omega⟩
           | exact ⟨[b, b1, b2, b3], rfl, by simp, by intro x hx; simp at hx; omega⟩)

theorem utf8Step_some_length (l tail : List Nat) (h : utf8Step l = some tail) :
    tail.length < l.length := by
  obtain ⟨c, rfl, hne, -⟩ := utf8Step_decomp l tail h
  have : 0 < c.length := List.length_pos.mpr hne
  simp only [List.length_append]
  omega

theorem utf8Step_ascii (b : Nat) (rest : List Nat) (h : b < 0x80) :
    utf8Step (b :: rest) = some rest := by
  simp [utf8Step, h]

theorem utf8Step_multi (b : Nat) (rest tail : List Nat) (hb : 0x80 ≤ b)
    (h : utf8Step (b :: rest) = some tail) : tail.length + 1 ≤ rest.length := by
  match rest with
  | [] =>
    simp only [utf8Step] at h
    split_ifs at h <;> first | omega | (exact Option.noConfusion h)
  | [b1] =>
    simp only [utf8Step] at h
    split_ifs at h <;>
    first
      | omega
      | (exact Option.noConfusion h)
      | (rw [Option.some.injEq] at h; subst h; simp)
  | [b1, b2] =>
    simp only [utf8Step] at h
    split_ifs at h <;>
    first
      | omega
      | (exact Option.noConfusion h)
      | (rw [Option.some.injEq] at h; subst h; simp)
  | b1 :: b2 :: b3 :: rest3 =>
    simp only [utf8Step] at h
    split_ifs at h <;>
    first
      | omega
      | (exact Option.noConfusion h)
      | (rw [Option.some.injEq] at h; subst h; simp <;> omega)

theorem validLoop_congr (s1 s2 : List Nat → Option (List Nat))
    (hs : ∀ l, s1 l = s2 l) : ∀ fuel l, validLoop s1 fuel l = validLoop s2 fuel l := by
  intro fuel
  induction fuel with
  | zero => intro l; match l with
    | [] => rfl
    | b :: rest => rfl
  | succ n ih =>
    intro l
    match l with
    | [] => rfl
    | b :: rest =>
      simp only [validLoop, hs]
      cases s2 (b :: rest) with
      | some tail => exact ih tail
      | none => rfl

/-- Refinement between the two validators: Go's table-driven check accepts
exactly the well-formed UTF-8 sequences of the standard definition. -/
theorem utf8Valid_eq_spec (l : List Nat) : utf8Valid l = utf8SpecValid l :=
  validLoop_congr utf8Step utf8SpecStep utf8Step_eq_spec l.length l

theorem validLoop_fuel : ∀ f1 f2 (l : List Nat), l.length ≤ f1 → l.length ≤ f2 →
    validLoop utf8Step f1 l = validLoop utf8Step f2 l := by
  intro f1
  induction f1 with
  | zero =>
    intro f2 l h1 h2
    match l with
    | [] => match f2 with
      | 0 => rfl
      | n + 1 => rfl
    | b :: rest => simp at h1
  | succ n ih =>
    intro f2 l h1 h2
    match l with
    | [] => match f2 with
      | 0 => rfl
      | m + 1 => rfl
    | b :: rest =>
      match f2 with
      | 0 => simp at h2
      | m + 1 =>
        simp only [validLoop]
        cases hstep : utf8Step (b :: rest) with
        | some tail =>
          have := utf8Step_some_length _ _ hstep
          simp only [List.length_cons] at h1 h2 this
          exact ih m tail (by omega) (by omega)
        | none => rfl

theorem utf8Valid_step (b : Nat) (rest : List Nat) :
    utf8Valid (b :: rest) =
      match utf8Step (b :: rest) with
      | some tail => utf8Valid tail
      | none => false := by
  show validLoop utf8Step (b :: rest).length (b :: rest) = _
  simp only [List.length_cons, validLoop]
  cases hstep : utf8Step (b :: rest) with
  | some tail =>
    have := utf8Step_some_length _ _ hstep
    simp only [List.length_cons] at this
    exact validLoop_fuel rest.length tail.length tail (by omega) le_rfl
  | none => rfl

theorem utf8Valid_of_ascii (l : List Nat) (h : ∀ b ∈ l, b < 0x80) :
    utf8Valid l = true := by
  induction l with
  | nil => rfl
  | cons b rest ih =>
    rw [utf8Valid_step, utf8Step_ascii b rest (h b (by simp))]
    exact ih fun x hx => h x (by simp [hx])

theorem utf8Valid_bytes_lt (l : List Nat) (h : utf8Valid l = true) :
    ∀ b ∈ l, b < 245 := by
  suffices H : ∀ n (l : List Nat), l.length ≤ n → utf8Valid l = true →
      ∀ b ∈ l, b < 245 from H l.length l le_rfl h
  intro n
  induction n with
  | zero =>
    intro l hl _ b hb
    match l with
    | [] => simp at hb
  | succ n ih =>
    intro l hl hv b hb
    match l with
    | [] => simp at hb
    | c :: rest =>
      rw [utf8Valid_step] at hv
      cases hstep : utf8Step (c :: rest) with
      | none => rw [hstep] at hv; simp at hv
      | some tail =>
        rw [hstep] at hv
        obtain ⟨pre, heq, -, hpre⟩ := utf8Step_decomp _ _ hstep
        have hlen := utf8Step_some_length _ _ hstep
        rw [heq] at hb
        rcases List.mem_append.mp hb with hmem | hmem
        · exact hpre b hmem
        · have hl2 : rest.length + 1 ≤ n + 1 := by simpa using hl
          have hlen2 : tail.length < rest.length + 1 := by simpa using hlen
          exact ih tail (by omega) hv b hmem

theorem runeStep_length (b : Nat) (rest : List Nat) :
    (runeStep (b :: rest)).length ≤ rest.length := by
  cases hstep : utf8Step (b :: rest) with
  | some tail =>
    have h2 := utf8Step_some_length _ _ hstep
    simp only [runeStep, hstep, List.length_cons] at h2 ⊢
    omega
  | none => simp [runeStep, hstep]

theorem runeCountLoop_fuel : ∀ f1 f2 (l : List Nat), l.length ≤ f1 → l.length ≤ f2 →
    runeCountLoop f1 l = runeCountLoop f2 l := by
  intro f1
  induction f1 with
  | zero =>
    intro f2 l h1 h2
    match l with
    | [] => match f2 with
      | 0 => rfl
      | m + 1 => rfl
    | b :: rest => simp at h1
  | succ n ih =>
    intro f2 l h1 h2
    match l with
    | [] => match f2 with
      | 0 => rfl
      | m + 1 => rfl
    | b :: rest =>
      match f2 with
      | 0 => simp at h2
      | m + 1 =>
        simp only [runeCountLoop]
        have hr := runeStep_length b rest
        simp only [List.length_cons] at h1 h2
        rw [ih m (runeStep (b :: rest)) (by omega) (by omega)]

theorem runeCount_step (b : Nat) (rest : List Nat) :
    runeCount (b :: rest) = 1 + runeCount (runeStep (b :: rest)) := by
  show runeCountLoop (b :: rest).length (b :: rest) = _
  simp only [List.length_cons, runeCountLoop]
  have hr := runeStep_length b rest
  rw [runeCountLoop_fuel rest.length (runeStep (b :: rest)).length _ (by omega) le_rfl]
  rfl

theorem runeCount_valid (l : List Nat) (h : utf8Valid l = true) :
    runeCount l ≤ l.length ∧ (runeCount l = l.length ↔ ∀ b ∈ l, b < 0x80) := by
  suffices H : ∀ n (l : List Nat), l.length ≤ n → utf8Valid l = true →
      runeCount l ≤ l.length ∧ (runeCount l = l.length ↔ ∀ b ∈ l, b < 0x80) from
    H l.length l le_rfl h
  intro n
  induction n with
  | zero =>
    intro l hl _
    match l with
    | [] => exact ⟨le_rfl, by simp [runeCount, runeCountLoop]⟩
  | succ n ih =>
    intro l hl hv
    match l with
    | [] => exact ⟨le_rfl, by simp [runeCount, runeCountLoop]⟩
    | c :: rest =>
      rw [utf8Valid_step] at hv
      cases hstep : utf8Step (c :: rest) with
      | none => rw [hstep] at hv; simp at hv
      | some tail =>
        rw [hstep] at hv
        have hcount : runeCount (c :: rest) = 1 + runeCount tail := by
          rw [runeCount_step]
          simp [runeStep, hstep]
        simp only [List.length_cons] at hl
        by_cases hc : c < 0x80
        · have htail : tail = rest := by
            rw [utf8Step_ascii c rest hc] at hstep
            injection hstep with h2
            exact h2.symm
          rw [htail] at hcount hv
          obtain ⟨ihle, ihiff⟩ := ih rest (by omega) hv
          constructor
          · simp only [hcount, List.length_cons]; omega
          · simp only [hcount, List.length_cons]
            constructor
            · intro heq
              intro x hx
              rcases List.mem_cons.mp hx with rfl | hx2
              · exact hc
              · exact ihiff.mp (by omega) x hx2
            · intro hall
              have : runeCount rest = rest.length :=
                ihiff.mpr fun x hx => hall x (List.mem_cons_of_mem _ hx)
              omega
        · have hmlen : tail.length + 1 ≤ rest.length :=
            utf8Step_multi c rest tail (by omega) hstep
          obtain ⟨ihle, -⟩ := ih tail (by omega) hv
          constructor
          · simp only [hcount, List.length_cons]; omega
          · constructor
            · intro heq
              rw [hcount] at heq
              simp only [List.length_cons] at heq
              omega
            · intro hall
              exact absurd (hall c (by simp)) (by omega)

theorem b64inv_char : ∀ i, i < 64 → b64inv (b64char i) = some i := by decide

theorem b64char_ne_pad : ∀ i, i < 64 → b64char i ≠ 61 := by decide

theorem base64Encode_length (l : List Nat) :
    (base64Encode l).length = 4 * ((l.length + 2) / 3) := by
  suffices H : ∀ n (l : List Nat), l.length ≤ n →
      (base64Encode l).length = 4 * ((l.length + 2) / 3) from H l.length l le_rfl
  intro n
  induction n with
  | zero =>
    intro l hl
    match l with
    | [] => rfl
  | succ n ih =>
    intro l hl
    match l with
    | [] => rfl
    | [b0] => simp [base64Encode]
    | [b0, b1] => simp [base64Encode]
    | b0 :: b1 :: b2 :: rest =>
      simp only [base64Encode, List.length_cons]
      have := ih rest (by simp at hl; omega)
      rw [this]
      omega

theorem base64_roundtrip (l : List Nat) (hall : ∀ b ∈ l, b < 256) :
    base64Decode (base64Encode l) = .ok l := by
  suffices H : ∀ n (l : List Nat), l.length ≤ n → (∀ b ∈ l, b < 256) →
      base64Decode (base64Encode l) = .ok l from H l.length l le_rfl hall
  intro n
  induction n with
  | zero =>
    intro l hl _
    match l with
    | [] => rfl
  | succ n ih =>
    intro l hl hall
    match l with
    | [] => rfl
    | [b0] =>
      have hb0 : b0 < 256 := hall b0 (by simp)
      have h0 : b64inv (b64char (b0 / 4)) = some (b0 / 4) := b64inv_char _ (by omega)
      have h1 : b64inv (b64char (b0 % 4 * 16)) = some (b0 % 4 * 16) :=
        b64inv_char _ (by omega)
      simp [base64Encode, base64Decode, h0, h1] <;> omega
    | [b0, b1] =>
      have hb0 : b0 < 256 := hall b0 (by simp)
      have hb1 : b1 < 256 := hall b1 (by simp)
      have h0 : b64inv (b64char (b0 / 4)) = some (b0 / 4) := b64inv_char _ (by omega)
      have h1 : b64inv (b64char (b0 % 4 * 16 + b1 / 16)) = some (b0 % 4 * 16 + b1 / 16) :=
        b64inv_char _ (by omega)
      have h2 : b64inv (b64char (b1 % 16 * 4)) = some (b1 % 16 * 4) :=
        b64inv_char _ (by omega)
      have hne : b64char (b1 % 16 * 4) ≠ 61 := b64char_ne_pad _ (by omega)
      simp [base64Encode, base64Decode, h0, h1, h2, hne] <;> omega
    | b0 :: b1 :: b2 :: rest =>
      have hb0 : b0 < 256 := hall b0 (by simp)
      have hb1 : b1 < 256 := hall b1 (by simp)
      have hb2 : b2 < 256 := hall b2 (by simp)
      have h0 : b64inv (b64char (b0 / 4)) = some (b0 / 4) := b64inv_char _ (by omega)
      have h1 : b64inv (b64char (b0 % 4 * 16 + b1 / 16)) = some (b0 % 4 * 16 + b1 / 16) :=
        b64inv_char _ (by omega)
      have h2 : b64inv (b64char (b1 % 16 * 4 + b2 / 64)) = some (b1 % 16 * 4 + b2 / 64) :=
        b64inv_char _ (by omega)
      have h3 : b64inv (b64char (b2 % 64)) = some (b2 % 64) := b64inv_char _ (by omega)
      have hne2 : b64char (b1 % 16 * 4 + b2 / 64) ≠ 61 := b64char_ne_pad _ (by omega)
      have hne3 : b64char (b2 % 64) ≠ 61 := b64char_ne_pad _ (by omega)
      have hrec : base64Decode (base64Encode rest) = .ok rest :=
        ih rest (by simp at hl; omega) fun x hx => hall x (by simp [hx])
      simp [base64Encode, base64Decode, h0, h1, h2, h3, hne2, hne3, hrec] <;> omega

theorem toLowerByte_idem (c : Nat) : toLowerByte (toLowerByte c) = toLowerByte c := by
  unfold toLowerByte
  split_ifs <;> omega

theorem isSpace_toLower (c : Nat) : isSpaceByte (toLowerByte c) = isSpaceByte c := by
  unfold isSpaceByte toLowerByte
  split_ifs with h
  · rw [decide_eq_decide]; omega
  · rfl

theorem dropWhile_map_lower (l : List Nat) :
    (l.map toLowerByte).dropWhile isSpaceByte =
      (l.dropWhile isSpaceByte).map toLowerByte := by
  rw [List.dropWhile_map]
  have hfun : (isSpaceByte ∘ toLowerByte) = isSpaceByte := funext isSpace_toLower
  rw [hfun]

theorem trimSpace_map_lower (l : List Nat) :
    trimSpace (l.map toLowerByte) = (trimSpace l).map toLowerByte := by
  unfold trimSpace
  rw [dropWhile_map_lower, ← List.map_reverse, dropWhile_map_lower, ← List.map_reverse]

theorem map_lower_idem (l : List Nat) :
    (l.map toLowerByte).map toLowerByte = l.map toLowerByte := by
  rw [List.map_map]
  have hfun : (toLowerByte ∘ toLowerByte) = toLowerByte := funext toLowerByte_idem
  rw [hfun]

theorem dropWhile_idem (p : Nat → Bool) (l : List Nat) :
    (l.dropWhile p).dropWhile p = l.dropWhile p := by
  induction l with
  | nil => rfl
  | cons a t ih =>
    by_cases h : p a
    · simp only [List.dropWhile_cons, if_pos h]
      exact ih
    · simp only [List.dropWhile_cons, if_neg h]

theorem dropWhile_decomp (p : Nat → Bool) (l : List Nat) :
    ∃ w, l = w ++ l.dropWhile p := by
  induction l with
  | nil => exact ⟨[], rfl⟩
  | cons a t ih =>
    by_cases h : p a
    · obtain ⟨w, hw⟩ := ih
      refine ⟨a :: w, ?_⟩
      simp only [List.dropWhile_cons, if_pos h, List.cons_append, List.cons.injEq]
      exact ⟨by trivial, hw⟩
    · exact ⟨[], by simp only [List.dropWhile_cons, if_neg h, List.nil_append]⟩

theorem dropWhile_head_false (p : Nat → Bool) (l : List Nat) (a : Nat) (t : List Nat)
    (h : l.dropWhile p = a :: t) : p a = false := by
  induction l with
  | nil => simp at h
  | cons x xs ih =>
    rw [List.dropWhile_cons] at h
    split_ifs at h with hx
    · exact ih h
    · injection h with h1 h2
      subst h1
      simpa using hx

theorem revDrop_cons (p : Nat → Bool) (x : List Nat) (a : Nat) (t : List Nat)
    (h : (x.reverse.dropWhile p).reverse = a :: t) : ∃ s, x = a :: s := by
  obtain ⟨w, hw⟩ := dropWhile_decomp p x.reverse
  have hd : x.reverse.dropWhile p = (a :: t).reverse := by
    rw [← h, List.reverse_reverse]
  rw [hd] at hw
  refine ⟨t ++ w.reverse, ?_⟩
  have h2 := congrArg List.reverse hw
  rw [List.reverse_reverse, List.reverse_append, List.reverse_reverse] at h2
  simpa using h2

theorem trimSpace_trimSpace (l : List Nat) : trimSpace (trimSpace l) = trimSpace l := by
  have claim1 : (trimSpace l).dropWhile isSpaceByte = trimSpace l := by
    cases hT : trimSpace l with
    | nil => rfl
    | cons a t =>
      obtain ⟨s, hs⟩ := revDrop_cons isSpaceByte (l.dropWhile isSpaceByte) a t hT
      have hpa : isSpaceByte a = false := dropWhile_head_false isSpaceByte l a s hs
      rw [List.dropWhile_cons, if_neg (by simp [hpa])]
  show (((trimSpace l).dropWhile isSpaceByte).reverse.dropWhile isSpaceByte).reverse
      = trimSpace l
  rw [claim1]
  have hrev : (trimSpace l).reverse =
      (l.dropWhile isSpaceByte).reverse.dropWhile isSpaceByte := by
    show (((l.dropWhile isSpaceByte).reverse.dropWhile
      isSpaceByte).reverse).reverse = _
    rw [List.reverse_reverse]
  rw [hrev, dropWhile_idem]
  rfl

theorem normalizeLabel_idem (l : List Nat) :
    normalizeLabel (normalizeLabel l) = normalizeLabel l := by
  unfold normalizeLabel
  rw [trimSpace_map_lower, trimSpace_trimSpace, map_lower_idem]

theorem getEncoding_normalize (label : List Nat) :
    getEncoding (normalizeLabel label) = getEncoding label := by
  unfold getEncoding
  rw [normalizeLabel_idem]

/-- C3: for every byte sequence within the 100 MiB size limit, `DecodeUTF8`
fails with the `InvalidUTF8` error exactly when the bytes are not
well-formed UTF-8 by the standard definition (`utf8SpecValid` rejects
invalid start bytes, incomplete sequences, overlong encodings, surrogate
encodings and code points above `U+10FFFF`); otherwise it returns the
string formed directly from the bytes; empty input returns the empty
string with no error. -/
theorem claim_C3 (data : List Nat) (hsize : data.length ≤ MaxInputSize) :
    (DecodeUTF8 data = .error .invalidUTF8 ↔ utf8SpecValid data = false) ∧
    (utf8SpecValid data = true → DecodeUTF8 data = .ok data) ∧
    DecodeUTF8 [] = .ok [] := by
  have heq := utf8Valid_eq_spec data
  refine ⟨?_, ?_, by simp [DecodeUTF8]⟩
  · unfold DecodeUTF8
    split_ifs with h1 h2 h3
    · have hdata : data = [] := List.length_eq_zero.mp h1
      subst hdata
      simp [utf8SpecValid, validLoop]
    · omega
    · rw [heq] at h3
      simp [h3]
    · have hvf : utf8Valid data = false := by
        revert h3
        cases utf8Valid data <;> simp
      rw [heq] at hvf
      simp [hvf]
  · intro hspec
    have hvv : utf8Valid data = true := heq.trans hspec
    unfold DecodeUTF8
    split_ifs with h1 h2 h3 <;>
      first
        | (rw [List.length_eq_zero.mp h1])
        | omega
        | rfl
        | (exact absurd hvv (by simpa using h3))

/-- C3 witness: `DecodeUTF8` rejects the bytes `[0xFF, 0xFE]` with the
`InvalidUTF8` error and accepts `"hi"`. -/
theorem claim_C3_witness :
    DecodeUTF8 [255, 254] = .error .invalidUTF8 ∧
    DecodeUTF8 [104, 105] = .ok [104, 105] :=
  ⟨(claim_C3 [255, 254] (by decide)).1.mpr (by decide),
   ((claim_C3 [104, 105] (by decide)).2.1) (by decide)⟩

/-- C4 counterexample: the validity predicates do fail on some inputs,
against the claim that they never fail: an input one byte over the
100 MiB limit makes both return the input-too-large error. -/
theorem claim_C4_counterexample :
    IsValidUTF8 (List.replicate 104857601 97) = .error .inputTooLarge ∧
    IsValidUTF8Bytes (List.replicate 104857601 97) = .error .inputTooLarge := by
  have hne : List.replicate 104857601 97 ≠ ([] : List Nat) := by
    rw [Ne, List.replicate_eq_nil_iff]
    omega
  have hlen : (List.replicate 104857601 97).length = 104857601 :=
    List.length_replicate _ _
  constructor
  · unfold IsValidUTF8
    rw [if_neg hne, if_pos (by rw [hlen]; decide)]
  · unfold IsValidUTF8Bytes
    rw [if_neg (by rw [hlen]; decide), if_pos (by rw [hlen]; decide)]

/-- C4 (amended): `IsValidUTF8` and `IsValidUTF8Bytes` never fail for any
input within the 100 MiB size limit (they always return a boolean), empty
input is always reported valid, and inputs over the limit fail with the
input-too-large error. -/
theorem claim_C4 (text data : List Nat)
    (h1 : text.length ≤ MaxInputSize) (h2 : data.length ≤ MaxInputSize) :
    (∃ b, IsValidUTF8 text = .ok b) ∧ (∃ b, IsValidUTF8Bytes data = .ok b) ∧
    IsValidUTF8 [] = .ok true ∧ IsValidUTF8Bytes [] = .ok true ∧
    (∀ t : List Nat, t.length > MaxInputSize →
      IsValidUTF8 t = .error .inputTooLarge ∧
      IsValidUTF8Bytes t = .error .inputTooLarge) := by
  have hM : MaxInputSize = 104857600 := rfl
  refine ⟨?_, ?_, rfl, rfl, ?_⟩
  · unfold IsValidUTF8
    split_ifs with g1 g2
    · exact ⟨true, rfl⟩
    · omega
    · exact ⟨utf8Valid text, rfl⟩
  · unfold IsValidUTF8Bytes
    split_ifs with g1 g2
    · exact ⟨true, rfl⟩
    · omega
    · exact ⟨utf8Valid data, rfl⟩
  · intro t ht
    have htne : t ≠ [] := by
      intro hemp
      subst hemp
      simp at ht
    have htlen : ¬ t.length = 0 := by
      intro hz
      omega
    constructor
    · unfold IsValidUTF8
      rw [if_neg htne, if_pos ht]
    · unfold IsValidUTF8Bytes
      rw [if_neg htlen, if_pos ht]

/-- C4 witness: the amended claim applied to small concrete inputs. -/
theorem claim_C4_witness :
    ∃ b, IsValidUTF8 [104] = Except.ok b :=
  (claim_C4 [104] [255] (by decide) (by decide)).1

/-- C6: whenever both counters succeed, the rune count is at most the byte
count, with equality exactly when every byte is ASCII. -/
theorem claim_C6 (s : List Nat) (r n : Nat)
    (hr : CountUTF8Runes s = .ok r) (hn : CountUTF8Bytes s = .ok n) :
    r ≤ n ∧ (r = n ↔ ∀ b ∈ s, b < 128) := by
  unfold CountUTF8Runes at hr
  unfold CountUTF8Bytes at hn
  split_ifs at hr hn with h1 h2 h3 <;>
    first
      | (exact Except.noConfusion hr)
      | (injection hr with hr2
         injection hn with hn2
         subst h1
         simp [← hr2, ← hn2])
      | (injection hr with hr2
         injection hn with hn2
         obtain ⟨hle, hiff⟩ := runeCount_valid s (by simpa using h3)
         subst hr2
         subst hn2
         exact ⟨hle, hiff⟩)

/-- C6 witness: the two-byte rune U+03C0 (`[0xCF, 0x80]`) has one rune in
two bytes, and equality fails as the input is not pure ASCII. -/
theorem claim_C6_witness :
    1 ≤ 2 ∧ (1 = 2 ↔ ∀ b ∈ [207, 128], b < 128) :=
  claim_C6 [207, 128] 1 2 (by decide) (by decide)

/-- C7: each of the six fallible facade operations fails with the
input-too-large error exactly when its input exceeds
`MaxInputSize = 104857600` bytes; at or below the limit the size error
never occurs, whatever the content. -/
theorem claim_C7 (input : List Nat) :
    MaxInputSize = 104857600 ∧
    (EncodeUTF8 input = .error .inputTooLarge ↔ input.length > MaxInputSize) ∧
    (DecodeUTF8 input = .error .inputTooLarge ↔ input.length > MaxInputSize) ∧
    (EncodeUTF8ToBase64 input = .error .inputTooLarge ↔ input.length > MaxInputSize) ∧
    (DecodeUTF8FromBase64 input = .error .inputTooLarge ↔ input.length > MaxInputSize) ∧
    (CountUTF8Bytes input = .error .inputTooLarge ↔ input.length > MaxInputSize) ∧
    (CountUTF8Runes input = .error .inputTooLarge ↔ input.length > MaxInputSize) := by
  have hM : MaxInputSize = 104857600 := rfl
  refine ⟨rfl, ?_, ?_, ?_, ?_, ?_, ?_⟩
  · unfold EncodeUTF8
    split_ifs with h1 h2 h3 <;> simp_all [hM] <;> omega
  · unfold DecodeUTF8
    split_ifs with h1 h2 h3 <;> simp_all [hM] <;> omega
  · unfold EncodeUTF8ToBase64
    split_ifs with h1 h2 h3 <;> simp_all [hM] <;> omega
  · unfold DecodeUTF8FromBase64
    split_ifs with h1 h2
    · simp_all [hM]
    · simp_all [hM]
    · cases hb : base64Decode input with
      | error e => simp_all [hM]
      | ok d => by_cases h3 : utf8Valid d = true <;> simp_all [hM]
  · unfold CountUTF8Bytes
    split_ifs with h1 h2 h3 <;> simp_all [hM] <;> omega
  · unfold CountUTF8Runes
    split_ifs with h1 h2 h3 <;> simp_all [hM] <;> omega

/-- C1 counterexample: a valid ASCII string of 78643201 bytes is within the
100 MiB limit, and `EncodeUTF8ToBase64` accepts it, but its Base64 text is
104857604 bytes, so `DecodeUTF8FromBase64` rejects the round trip with the
input-too-large error instead of returning the string. -/
theorem claim_C1_counterexample :
    (List.replicate 78643201 97).length ≤ MaxInputSize ∧
    utf8Valid (List.replicate 78643201 97) = true ∧
    EncodeUTF8ToBase64 (List.replicate 78643201 97) =
      .ok (base64Encode (List.replicate 78643201 97)) ∧
    DecodeUTF8FromBase64 (base64Encode (List.replicate 78643201 97)) =
      .error .inputTooLarge := by
  have hlen : (List.replicate 78643201 97).length = 78643201 :=
    List.length_replicate _ _
  have hval : utf8Valid (List.replicate 78643201 97) = true :=
    utf8Valid_of_ascii _ fun b hb => by
      have := List.eq_of_mem_replicate hb
      omega
  have hne : List.replicate 78643201 97 ≠ ([] : List Nat) := by
    rw [Ne, List.replicate_eq_nil_iff]
    omega
  have hblen : (base64Encode (List.replicate 78643201 97)).length = 104857604 := by
    rw [base64Encode_length, hlen]
  refine ⟨by rw [hlen]; decide, hval, ?_, ?_⟩
  · unfold EncodeUTF8ToBase64
    rw [if_neg hne, if_neg (by rw [hlen]; decide), if_neg (not_not_intro hval)]
  · unfold DecodeUTF8FromBase64
    rw [if_neg (by
        intro hemp
        rw [hemp] at hblen
        simp at hblen),
      if_pos (by rw [hblen]; decide)]

/-- C1 (amended): for every valid UTF-8 string within the 100 MiB limit,
`DecodeUTF8` of `EncodeUTF8` succeeds and returns the string; the Base64
round trip `DecodeUTF8FromBase64` of `EncodeUTF8ToBase64` also succeeds and
returns the string provided the byte length is at most 78643200, so that
the Base64 text itself (4 * ceil(n/3) bytes) stays within the 100 MiB
limit enforced by `DecodeUTF8FromBase64`. -/
theorem claim_C1 (s : List Nat) (hval : utf8Valid s = true) :
    (s.length ≤ MaxInputSize →
      ∃ e, EncodeUTF8 s = .ok e ∧ DecodeUTF8 e = .ok s) ∧
    (s.length ≤ 78643200 →
      ∃ e, EncodeUTF8ToBase64 s = .ok e ∧ DecodeUTF8FromBase64 e = .ok s) := by
  have hM : MaxInputSize = 104857600 := rfl
  constructor
  · intro hle
    refine ⟨s, ?_, ?_⟩
    · unfold EncodeUTF8
      split_ifs with h1 h2 h3 <;>
        first
          | (rw [h1])
          | omega
          | rfl
          | (exact absurd hval (by simpa using h3))
    · unfold DecodeUTF8
      split_ifs with h1 h2 h3 <;>
        first
          | (rw [List.length_eq_zero.mp h1])
          | omega
          | rfl
          | (exact absurd hval (by simpa using h3))
  · intro hle
    by_cases hs : s = []
    · subst hs
      exact ⟨[], rfl, rfl⟩
    · have hslen : 0 < s.length := List.length_pos.mpr hs
      have hblen : (base64Encode s).length = 4 * ((s.length + 2) / 3) :=
        base64Encode_length s
      have hb256 : ∀ b ∈ s, b < 256 := fun b hb =>
        Nat.lt_trans (utf8Valid_bytes_lt s hval b hb) (by omega)
      have hrt : base64Decode (base64Encode s) = .ok s := base64_roundtrip s hb256
      refine ⟨base64Encode s, ?_, ?_⟩
      · unfold EncodeUTF8ToBase64
        rw [if_neg hs, if_neg (by omega), if_neg (not_not_intro hval)]
      · unfold DecodeUTF8FromBase64
        rw [if_neg (by
            intro hemp
            rw [hemp] at hblen
            simp at hblen
            omega),
          if_neg (by omega)]
        rw [hrt]
        simp [hval]

/-- C1 witness: the round trips at the concrete string "hi". -/
theorem claim_C1_witness :
    (∃ e, EncodeUTF8 [104, 105] = .ok e ∧ DecodeUTF8 e = .ok [104, 105]) ∧
    (∃ e, EncodeUTF8ToBase64 [104, 105] = .ok e ∧
      DecodeUTF8FromBase64 e = .ok [104, 105]) := by
  have h := claim_C1 [104, 105] (by decide)
  exact ⟨h.1 (by decide), h.2 (by decide)⟩

/-- C2: the README documents the Korean aliases `iso-2022-kr` and
`iso2022kr` as supported, but the registry rejects both with the
unsupported-encoding error, while the rest of the Korean family resolves;
the empty string is also rejected. -/
theorem claim_C2 :
    getEncoding (strB "iso-2022-kr") =
      .error (.unsupportedEncoding (strB "iso-2022-kr")) ∧
    getEncoding (strB "iso2022kr") =
      .error (.unsupportedEncoding (strB "iso2022kr")) ∧
    getEncoding (strB "euc-kr") = .ok .eucKR ∧
    getEncoding (strB "euckr") = .ok .eucKR ∧
    getEncoding [] = .error (.unsupportedEncoding []) := by decide

/-- C8: resolution factors through normalization — every label resolves to
the same codec as its whitespace-trimmed, lowercased form — and the labels
"LATIN1" and "iso-8859-1" resolve to the same codec identity. -/
theorem claim_C8 :
    (∀ label : List Nat, getEncoding label = getEncoding (normalizeLabel label)) ∧
    getEncoding (strB "LATIN1") = .ok .iso8859_1 ∧
    getEncoding (strB "iso-8859-1") = .ok .iso8859_1 :=
  ⟨fun label => (getEncoding_normalize label).symm, by decide, by decide⟩

/-- C9: a `TextEncoder` or `TextDecoder` carrying one of the UTF-8 labels
is an identity pass-through for every input (empty input included),
whatever the external transcoder would do. -/
theorem claim_C9 (underlying : Codec → List Nat → Except Unit (List Nat))
    (te : TextEncoder) (td : TextDecoder)
    (hte : te.label = strB "utf-8" ∨ te.label = strB "utf8")
    (htd : td.label = strB "utf-8" ∨ td.label = strB "utf8")
    (text data : List Nat) :
    TextEncoder.Encode underlying te text = .ok text ∧
    TextDecoder.Decode underlying td data = .ok data := by
  constructor
  · unfold TextEncoder.Encode
    split_ifs with h1 h2 <;>
      first
        | (rw [h1])
        | rfl
        | (exact absurd hte h2)
  · unfold TextDecoder.Decode
    split_ifs with h1 h2 <;>
      first
        | (rw [List.length_eq_zero.mp h1])
        | rfl
        | (exact absurd htd h2)

/-- C9 witness: concrete pass-throughs for both labels, with an external
transcoder that always fails, showing it is never consulted. -/
theorem claim_C9_witness :
    TextEncoder.Encode (fun _ _ => .error ()) ⟨Codec.utf8, strB "utf-8"⟩ [104] =
      .ok [104] ∧
    TextDecoder.Decode (fun _ _ => .error ()) ⟨Codec.utf8, strB "utf8"⟩ [200] =
      .ok [200] :=
  claim_C9 (fun _ _ => .error ()) ⟨Codec.utf8, strB "utf-8"⟩ ⟨Codec.utf8, strB "utf8"⟩
    (Or.inl rfl) (Or.inr rfl) [104] [200]

/-- C10: every label advertised by `GetSupportedEncodings` resolves in the
registry, i.e. `IsValidEncoding` holds for each of them. -/
theorem claim_C10 : GetSupportedEncodings.all IsValidEncoding = true := by decide
